import Mathlib

/-!
Shallow embedding of the AQC tutorial notebooks.

Embedded source functions (translated from the repository's notebook cells):

* the Grover pipeline for exactly-1 3-SAT: `input_state`, `oracle`,
  `n_controlled_Z`, `phase_amplification`, and the assembled driver
  `groverProgram` (n = 3, T = 3);
* the QAOA Max-Cut helpers `maxcut_obj` and `compute_expectation`;
* the HHL helper `get_psuccess`, including its KeyError and
  ZeroDivisionError handlers;
* an inventory of the exception handlers occurring in the source.

Circuits are ordered gate lists over named registers.  The oracle uses only
X / CX / CCX gates, which act classically on computational-basis states, so a
basis-state semantics `runGates` settles the functional claims about it.
Python exceptions are modelled explicitly: a gate-emission step that would
raise is recorded, and `oracle` returns the circuit built so far together
with an optional error, mirroring mutation-then-raise behaviour.
-/

/-- A qubit in one of the three quantum registers of the Grover notebook:
`inp i` is qubit `i` of the search-input register, `out i` qubit `i` of the
output register, `aux i` qubit `i` of the auxiliary register. -/
inductive Qubit where
  | inp : Nat → Qubit
  | out : Nat → Qubit
  | aux : Nat → Qubit
deriving DecidableEq

/-- A gate operation appended to a circuit.  `measure q c` records measuring
qubit `q` into classical bit `c` of the answer register. -/
inductive Gate where
  | h : Qubit → Gate
  | x : Qubit → Gate
  | cx : Qubit → Qubit → Gate
  | ccx : Qubit → Qubit → Qubit → Gate
  | measure : Qubit → Nat → Gate
deriving DecidableEq

/-- Python exceptions raised by the embedded notebook code. -/
inductive PyError where
  | indexError : PyError
  | valueError : String → PyError
deriving DecidableEq

/-- Python list indexing into a register of `size` qubits: a nonnegative
index must be below `size`, a negative index `i` resolves to `size + i`
when that is in range, anything else raises IndexError (`none`). -/
def pyIdx (size : Nat) (i : Int) : Option Nat :=
  if 0 ≤ i ∧ i < (size : Int) then some i.toNat
  else if -(size : Int) ≤ i ∧ i < 0 then some (i + size).toNat
  else none

/-- The input-register index a literal refers to, following the source:
a positive literal `l` uses `circuit_input[l-1]`, any other literal uses
`circuit_input[-l-1]`. -/
def litIdx (n : Nat) (l : Int) : Option Nat :=
  if l > 0 then pyIdx n (l - 1) else pyIdx n (-l - 1)

/-- Gates the oracle's per-clause literal loop appends for one literal:
`cx` from the literal's input qubit onto `aux k` for a positive literal;
an `x` flip followed by the `cx` otherwise.  `none` marks the point where
Python would raise IndexError. -/
def litComputeGates (n k : Nat) (l : Int) : List (Option Gate) :=
  match litIdx n l with
  | none => [none]
  | some i =>
    if l > 0 then [some (Gate.cx (Qubit.inp i) (Qubit.aux k))]
    else [some (Gate.x (Qubit.inp i)), some (Gate.cx (Qubit.inp i) (Qubit.aux k))]

/-- Gates of the oracle's per-clause flip-back loop for one literal: an `x`
on the literal's input qubit when the literal is negative, nothing
otherwise. -/
def litFlipbackGates (n : Nat) (l : Int) : List (Option Gate) :=
  if l < 0 then
    match pyIdx n (-l - 1) with
    | some i => [some (Gate.x (Qubit.inp i))]
    | none => [none]
  else []

/-- The three CCX gates the oracle appends after each clause's literal loop:
flip the ancilla `aux nc` by `inp 0 ∧ inp 1`, flip `aux k` by
`inp 2 ∧ ancilla`, flip the ancilla back.  Each gate needs its input-register
indices in range, otherwise Python raises IndexError. -/
def clauseCcxGates (n nc k : Nat) : List (Option Gate) :=
  if 2 < n then
    [some (Gate.ccx (Qubit.inp 0) (Qubit.inp 1) (Qubit.aux nc)),
     some (Gate.ccx (Qubit.inp 2) (Qubit.aux nc) (Qubit.aux k)),
     some (Gate.ccx (Qubit.inp 0) (Qubit.inp 1) (Qubit.aux nc))]
  else if 1 < n then
    [some (Gate.ccx (Qubit.inp 0) (Qubit.inp 1) (Qubit.aux nc)), none]
  else [none]

/-- One clause block of the oracle's clause loop: the literal loop, the CCX
triple, then the flip-back of negative literals. -/
def clauseComputeGates (n nc k : Nat) (c : List Int) : List (Option Gate) :=
  (c.map (litComputeGates n k)).flatten ++ clauseCcxGates n nc k ++
    (c.map (litFlipbackGates n)).flatten

/-- The oracle's `for (k, clause) in enumerate(formula)` loop, started at
clause index `k`.  The same loop is used for the compute pass and for the
uncompute pass. -/
def clauseLoopGates (n nc k : Nat) (formula : List (List Int)) :
    List (Option Gate) :=
  match formula with
  | [] => []
  | c :: rest => clauseComputeGates n nc k c ++ clauseLoopGates n nc (k + 1) rest

/-- The final gates combining the per-clause qubits into the output qubit,
selected on the number of clauses; `none` corresponds to the
`raise ValueError` branch. -/
def dispatchGates (nc : Nat) : Option (List Gate) :=
  if nc = 1 then some [Gate.cx (Qubit.aux 0) (Qubit.out 0)]
  else if nc = 2 then some [Gate.ccx (Qubit.aux 0) (Qubit.aux 1) (Qubit.out 0)]
  else if nc = 3 then
    some [Gate.ccx (Qubit.aux 0) (Qubit.aux 1) (Qubit.aux nc),
          Gate.ccx (Qubit.aux 2) (Qubit.aux nc) (Qubit.out 0),
          Gate.ccx (Qubit.aux 0) (Qubit.aux 1) (Qubit.aux nc)]
  else none

/-- Append planned gates to the circuit one at a time, stopping at the first
`none` (the point where Python raises): the result is the circuit as mutated
so far and whether all gates were appended. -/
def appendUntilErr (circuit : List Gate) : List (Option Gate) → List Gate × Bool
  | [] => (circuit, true)
  | none :: _ => (circuit, false)
  | some g :: rest => appendUntilErr (circuit ++ [g]) rest

/-- The oracle from the Grover notebook.  It appends, to `circuit`, the
compute pass over all clauses, the clause-count dispatch (raising
ValueError for 0 or more than 3 clauses), and the identical uncompute pass.
The result is the circuit after the call — including gates already appended
when an exception interrupts it — together with the raised exception, if
any. -/
def oracle (circuit : List Gate) (n : Nat) (formula : List (List Int)) :
    List Gate × Option PyError :=
  let nc := formula.length
  match appendUntilErr circuit (clauseLoopGates n nc 0 formula) with
  | (c1, false) => (c1, some PyError.indexError)
  | (c1, true) =>
    match dispatchGates nc with
    | none => (c1, some (PyError.valueError "We only allow at most 3 clauses"))
    | some ds =>
      match appendUntilErr (c1 ++ ds) (clauseLoopGates n nc 0 formula) with
      | (c2, false) => (c2, some PyError.indexError)
      | (c2, true) => (c2, none)

/-- The `input_state` preparation: a Hadamard on each of the `n` input
qubits, then X and H on the output qubit. -/
def input_state (circuit : List Gate) (n : Nat) : List Gate :=
  circuit ++ (List.range n).map (fun j => Gate.h (Qubit.inp j)) ++
    [Gate.x (Qubit.out 0), Gate.h (Qubit.out 0)]

/-- The notebook's `n_controlled_Z`: raises ValueError for more than two
controls, emits H·CX·H for one control and H·CCX·H for two, and appends
nothing for zero controls. -/
def n_controlled_Z (circuit : List Gate) (controls : List Qubit) (target : Qubit) :
    List Gate × Option PyError :=
  if controls.length > 2 then
    (circuit, some (PyError.valueError
      "The controlled Z with more than 2 controls is not implemented"))
  else if controls.length = 1 then
    (circuit ++ [Gate.h target, Gate.cx (controls.getD 0 target) target,
      Gate.h target], none)
  else if controls.length = 2 then
    (circuit ++ [Gate.h target,
      Gate.ccx (controls.getD 0 target) (controls.getD 1 target) target,
      Gate.h target], none)
  else (circuit, none)

/-- The notebook's `phase_amplification` (Grover diffusion): Hadamards on
all input qubits, X on all input qubits, an (n-1)-controlled Z on the last
input qubit, X on all, Hadamards on all. -/
def phase_amplification (circuit : List Gate) (n : Nat) :
    List Gate × Option PyError :=
  let c2 := circuit ++ (List.range n).map (fun j => Gate.h (Qubit.inp j)) ++
    (List.range n).map (fun j => Gate.x (Qubit.inp j))
  match n_controlled_Z c2 ((List.range (n - 1)).map (fun j => Qubit.inp j))
      (Qubit.inp (n - 1)) with
  | (c3, some e) => (c3, some e)
  | (c3, none) =>
    (c3 ++ (List.range n).map (fun j => Gate.x (Qubit.inp j)) ++
      (List.range n).map (fun j => Gate.h (Qubit.inp j)), none)

/-- The exactly-1 3-SAT formula hard-coded in the Grover driver cell. -/
def grover_formula : List (List Int) := [[1, 2, -3], [-1, -2, -3], [-1, 2, 3]]

/-- Sequence a possibly-failed construction step with the next one: a raised
exception aborts the program with the circuit as built so far. -/
def andThen (r : List Gate × Option PyError)
    (f : List Gate → List Gate × Option PyError) : List Gate × Option PyError :=
  match r with
  | (c, none) => f c
  | (c, some e) => (c, some e)

/-- The assembled 3-qubit Grover program of the driver cell: input-state
preparation, T = 3 iterations of oracle followed by phase amplification,
then measurement of each input qubit into the classical answer register. -/
def groverProgram : List Gate × Option PyError :=
  let c0 := input_state [] 3
  let r1 := andThen (andThen (oracle c0 3 grover_formula)
    (fun c => phase_amplification c 3)) (fun c => oracle c 3 grover_formula)
  let r2 := andThen (andThen r1 (fun c => phase_amplification c 3))
    (fun c => oracle c 3 grover_formula)
  let r3 := andThen r2 (fun c => phase_amplification c 3)
  andThen r3 (fun c =>
    (c ++ (List.range 3).map (fun j => Gate.measure (Qubit.inp j) j), none))

/-- A computational-basis state of the three quantum registers. -/
structure OState where
  inp : List Bool
  out : List Bool
  aux : List Bool
deriving DecidableEq

/-- Read a qubit's basis value (false outside the register). -/
def getQ (s : OState) : Qubit → Bool
  | Qubit.inp i => s.inp.getD i false
  | Qubit.out i => s.out.getD i false
  | Qubit.aux i => s.aux.getD i false

/-- Write a qubit's basis value (no effect outside the register). -/
def setQ (s : OState) : Qubit → Bool → OState
  | Qubit.inp i, b => { s with inp := s.inp.set i b }
  | Qubit.out i, b => { s with out := s.out.set i b }
  | Qubit.aux i, b => { s with aux := s.aux.set i b }

/-- Basis-state action of a single gate.  X, CX and CCX act classically;
H and measurement have no basis-state action, so they yield `none` — the
oracle emits neither. -/
def applyGate (g : Gate) (s : OState) : Option OState :=
  match g with
  | Gate.x q => some (setQ s q (!(getQ s q)))
  | Gate.cx c t => some (setQ s t (xor (getQ s t) (getQ s c)))
  | Gate.ccx a b t => some (setQ s t (xor (getQ s t) (getQ s a && getQ s b)))
  | Gate.h _ => none
  | Gate.measure _ _ => none

/-- Run a gate list on a basis state. -/
def runGates (gs : List Gate) (s : OState) : Option OState :=
  match gs with
  | [] => some s
  | g :: rest =>
    match applyGate g s with
    | some s1 => runGates rest s1
    | none => none

/-- Truth value of a literal under an assignment `x` of the input bits,
as described by the claim: the sign encodes negation and the absolute
value is the 1-based variable index. -/
def litVal (x : List Bool) (l : Int) : Bool :=
  if l > 0 then x.getD (l.toNat - 1) false else !(x.getD ((-l).toNat - 1) false)

/-- A clause of an exactly-1 formula is satisfied when exactly one of its
literals is true. -/
def exactlyOneTrue (x : List Bool) (c : List Int) : Bool :=
  c.countP (fun l => litVal x l) == 1

/-- The exactly-1 3-SAT predicate: every clause has exactly one true
literal. -/
def formulaHolds (x : List Bool) (F : List (List Int)) : Bool :=
  F.all (fun c => exactlyOneTrue x c)

/-- A clause containing each of the variables 1, 2, 3 exactly once,
positively or negatively. -/
def goodClause (c : List Int) : Prop :=
  (c.map Int.natAbs).Perm [1, 2, 3]

instance goodClauseDecidable (c : List Int) : Decidable (goodClause c) :=
  List.decidablePerm (c.map Int.natAbs) [1, 2, 3]

/-- Number of edges of `G` cut by the partition described by bitstring `x`
(the quantity the `maxcut_obj` docstring promises). -/
def cutSize (x : List Char) (G : List (Nat × Nat)) : Nat :=
  G.countP (fun e => x.getD e.1 ' ' ≠ x.getD e.2 ' ')

/-- The QAOA notebook's `maxcut_obj`: starts at 0 and subtracts 1 for every
edge whose endpoints get different characters of the solution bitstring. -/
def maxcut_obj (x : List Char) (G : List (Nat × Nat)) : Int :=
  G.foldl (fun obj e => if x.getD e.1 ' ' ≠ x.getD e.2 ' ' then obj - 1 else obj) 0

/-- The QAOA notebook's `compute_expectation`: accumulates
`maxcut_obj(bitstring[::-1], G) * count` and the total count over the
measurement dictionary, then divides. -/
def compute_expectation (counts : List (List Char × Nat)) (G : List (Nat × Nat)) :
    Rat :=
  let st := counts.foldl
    (fun (st : Rat × Rat) p =>
      (st.1 + (maxcut_obj p.1.reverse G : Rat) * (p.2 : Rat), st.2 + (p.2 : Rat)))
    (0, 0)
  st.1 / st.2

/-- Python exceptions relevant to `get_psuccess`. -/
inductive PyExc where
  | keyError : PyExc
  | zeroDivisionError : PyExc
deriving DecidableEq

/-- Python dictionary subscript `counts[key]`: KeyError when absent. -/
def dictGet (d : List (String × Nat)) (key : String) : Except PyExc Nat :=
  match d.lookup key with
  | some v => Except.ok v
  | none => Except.error PyExc.keyError

/-- Python division: ZeroDivisionError on a zero divisor. -/
def pyDiv (a b : Rat) : Except PyExc Rat :=
  if b = 0 then Except.error PyExc.zeroDivisionError else Except.ok (a / b)

/-- The HHL notebook's `get_psuccess`: reads `counts['11']` and
`counts['01']` with a caught KeyError defaulting each to 0, and divides
with a caught ZeroDivisionError defaulting the probability to 0. -/
def get_psuccess (counts : List (String × Nat)) : Rat :=
  let succ_rotation_fail_swap : Nat :=
    match dictGet counts "11" with
    | Except.ok v => v
    | Except.error _ => 0
  let succ_rotation_succ_swap : Nat :=
    match dictGet counts "01" with
    | Except.ok v => v
    | Except.error _ => 0
  let succ_rotation := succ_rotation_succ_swap + succ_rotation_fail_swap
  match pyDiv (succ_rotation_succ_swap : Rat) (succ_rotation : Rat) with
  | Except.ok v => v
  | Except.error _ => 0

/-- One `except` handler occurring in the repository source. -/
structure ExceptionHandler where
  file : String
  context : String
  caught : String
deriving DecidableEq

/-- Inventory of every try/except handler in the repository source, in
source order: the QiskitFinanceError catch around the WikipediaDataProvider
fetch in the financial-time-series notebook, and the two KeyError catches
plus the ZeroDivisionError catch inside `get_psuccess` in the HHL
notebook.  No other file of the repository contains a try or except
statement. -/
def sourceExceptionHandlers : List ExceptionHandler :=
  [⟨"src/.ipynb_checkpoints/Tutorial_7_Financial_Time_Series-checkpoint.ipynb",
    "WikipediaDataProvider fetch", "QiskitFinanceError"⟩,
   ⟨"src/tutorial_3/.ipynb_checkpoints/Tutorial_3_Part_2_HHL-checkpoint.ipynb",
    "get_psuccess lookup of key 11", "KeyError"⟩,
   ⟨"src/tutorial_3/.ipynb_checkpoints/Tutorial_3_Part_2_HHL-checkpoint.ipynb",
    "get_psuccess lookup of key 01", "KeyError"⟩,
   ⟨"src/tutorial_3/.ipynb_checkpoints/Tutorial_3_Part_2_HHL-checkpoint.ipynb",
    "get_psuccess probability division", "ZeroDivisionError"⟩]

/-! ### Functional models of the oracle's clause loop

The following definitions are functional models of what the clause-loop
gates do to a basis state; the lemmas below prove that running the emitted
gates agrees with them. -/

/-- Input-register contents after the literal loop of one clause: each
literal taken in the `else` branch (nonpositive) flips its input qubit. -/
def flipNonpos (n : Nat) (c : List Int) (v : List Bool) : List Bool :=
  match c with
  | [] => v
  | l :: rest =>
    if l > 0 then flipNonpos n rest v
    else
      match pyIdx n (-l - 1) with
      | some i => flipNonpos n rest (v.set i (!(v.getD i false)))
      | none => flipNonpos n rest v

/-- The parity accumulated into `aux k` by the literal loop of one clause:
each `cx` adds the current value of the literal's input qubit, read after
the `x` flip for a nonpositive literal. -/
def clauseAcc (n : Nat) (c : List Int) (v : List Bool) : Bool :=
  match c with
  | [] => false
  | l :: rest =>
    if l > 0 then
      match pyIdx n (l - 1) with
      | some i => xor (v.getD i false) (clauseAcc n rest v)
      | none => clauseAcc n rest v
    else
      match pyIdx n (-l - 1) with
      | some i =>
        xor ((v.set i (!(v.getD i false))).getD i false)
          (clauseAcc n rest (v.set i (!(v.getD i false))))
      | none => clauseAcc n rest v

/-- Input-register contents after the flip-back loop of one clause: each
strictly negative literal flips its input qubit. -/
def flipNeg (n : Nat) (c : List Int) (v : List Bool) : List Bool :=
  match c with
  | [] => v
  | l :: rest =>
    if l < 0 then
      match pyIdx n (-l - 1) with
      | some i => flipNeg n rest (v.set i (!(v.getD i false)))
      | none => flipNeg n rest v
    else flipNeg n rest v

/-- Parity of the flips that the literal loop applies to input qubit `i`. -/
def nonposParity (n : Nat) (c : List Int) (i : Nat) : Bool :=
  match c with
  | [] => false
  | l :: rest =>
    xor (!(decide (l > 0)) && (pyIdx n (-l - 1) == some i))
      (nonposParity n rest i)

/-- Parity of the flips that the flip-back loop applies to input qubit
`i`. -/
def negParity (n : Nat) (c : List Int) (i : Nat) : Bool :=
  match c with
  | [] => false
  | l :: rest =>
    xor (decide (l < 0) && (pyIdx n (-l - 1) == some i)) (negParity n rest i)

/-- The total amount by which one clause block flips `aux k`, as a function
of the initial input register `v` and the initial ancilla value `anc`: the
literal-loop parity XOR the CCX contribution `w2 ∧ (anc ⊕ (w0 ∧ w1))`
evaluated on the flipped inputs `w`. -/
def clauseFun (n : Nat) (c : List Int) (v : List Bool) (anc : Bool) : Bool :=
  xor (clauseAcc n c v)
    ((flipNonpos n c v).getD 2 false &&
      (xor anc ((flipNonpos n c v).getD 0 false &&
        (flipNonpos n c v).getD 1 false)))

/-- Auxiliary-register contents after one clause-loop pass starting at
clause index `k`: position `k + j` is flipped by `clauseFun` of clause `j`,
evaluated at the (restored) inputs `x` and ancilla value `anc`. -/
def passAux (n : Nat) (x : List Bool) (anc : Bool) :
    Nat → List (List Int) → List Bool → List Bool
  | _, [], a => a
  | k, c :: rest, a =>
    passAux n x anc (k + 1) rest
      (a.set k (xor (a.getD k false) (clauseFun n c x anc)))

/-! ### Helper lemmas for the Max-Cut objective -/

theorem maxcut_foldl_shift (x : List Char) (G : List (Nat × Nat)) (a : Int) :
    G.foldl (fun obj e => if x.getD e.1 ' ' ≠ x.getD e.2 ' ' then obj - 1 else obj) a
      = a - (cutSize x G : Int) := by
  induction G generalizing a with
  | nil => simp [cutSize]
  | cons e rest ih =>
    rw [List.foldl_cons, ih]
    simp only [cutSize, List.countP_cons]
    by_cases hc : x.getD e.1 ' ' = x.getD e.2 ' '
    · rw [if_neg (by simpa using hc), if_neg (by simpa using hc)]
      push_cast
      ring
    · rw [if_pos (by simpa using hc), if_pos (by simpa using hc)]
      push_cast
      ring

/-- C3 counterexample: on the two-node graph with one edge and the bitstring
"01", `maxcut_obj` does not return the cut size (it returns its negation). -/
theorem maxcut_obj_cex :
    maxcut_obj ['0', '1'] [(0, 1)] ≠ (cutSize ['0', '1'] [(0, 1)] : Int) := by
  decide

/-- C3 (amended): for every graph and bitstring, `maxcut_obj` returns the
negation of the number of edges whose endpoints lie in different
partitions, not that number itself. -/
theorem maxcut_obj_eq_neg_cutSize (x : List Char) (G : List (Nat × Nat)) :
    maxcut_obj x G = -(cutSize x G : Int) := by
  have h := maxcut_foldl_shift x G 0
  simpa [maxcut_obj] using h

/-! ### C4: compute_expectation -/

theorem compute_expectation_foldl (G : List (Nat × Nat))
    (l : List (List Char × Nat)) (a b : Rat) :
    l.foldl (fun (st : Rat × Rat) p =>
        (st.1 + (maxcut_obj p.1.reverse G : Rat) * (p.2 : Rat), st.2 + (p.2 : Rat)))
      (a, b)
      = (a + (l.map (fun p => (maxcut_obj p.1.reverse G : Rat) * (p.2 : Rat))).sum,
         b + (l.map (fun p => ((p.2 : Nat) : Rat))).sum) := by
  induction l generalizing a b with
  | nil => simp
  | cons p rest ih =>
    simp only [List.foldl_cons, List.map_cons, List.sum_cons, ih, Prod.mk.injEq]
    constructor <;> ring

/-- C4: for a measurement dictionary with positive total count,
`compute_expectation` returns the count-weighted average of `maxcut_obj`
over the measured bitstrings, each bitstring reversed before evaluation. -/
theorem compute_expectation_weighted_avg (counts : List (List Char × Nat))
    (G : List (Nat × Nat)) (hpos : 0 < (counts.map (fun p => p.2)).sum) :
    compute_expectation counts G =
      ((counts.map (fun p => (maxcut_obj p.1.reverse G : Rat) * (p.2 : Rat))).sum) /
        ((counts.map (fun p => ((p.2 : Nat) : Rat))).sum) := by
  unfold compute_expectation
  rw [compute_expectation_foldl G counts 0 0]
  simp

/-- Witness for C4 at a concrete dictionary and graph. -/
theorem compute_expectation_weighted_avg_witness :
    0 < (([(['0', '1'], 2)] : List (List Char × Nat)).map (fun p => p.2)).sum ∧
    compute_expectation [(['0', '1'], 2)] [(0, 1)] =
      ((([(['0', '1'], 2)] : List (List Char × Nat)).map
          (fun p => (maxcut_obj p.1.reverse [(0, 1)] : Rat) * (p.2 : Rat))).sum) /
        ((([(['0', '1'], 2)] : List (List Char × Nat)).map
          (fun p => ((p.2 : Nat) : Rat))).sum) :=
  ⟨by decide, compute_expectation_weighted_avg [(['0', '1'], 2)] [(0, 1)] (by decide)⟩

/-! ### C6: get_psuccess -/

theorem pyDiv_handled (a b : Nat) :
    (match pyDiv (a : Rat) ((a + b : Nat) : Rat) with
     | Except.ok v => v
     | Except.error _ => 0) =
      (if a + b = 0 then 0 else (a : Rat) / ((a : Rat) + (b : Rat))) := by
  unfold pyDiv
  by_cases h : a + b = 0
  · simp [h]
  · have hne : ((a + b : Nat) : Rat) ≠ 0 := by exact_mod_cast h
    simp only [hne, if_neg, if_false, h]
    push_cast
    ring_nf

/-- C6: `get_psuccess` is total: it returns `c01 / (c01 + c11)` where a
missing key counts as 0, and returns 0 instead of raising when
`c01 + c11 = 0`. -/
theorem get_psuccess_spec (counts : List (String × Nat)) :
    get_psuccess counts =
      (if (counts.lookup "01").getD 0 + (counts.lookup "11").getD 0 = 0 then 0
       else (((counts.lookup "01").getD 0 : Nat) : Rat) /
         ((((counts.lookup "01").getD 0 : Nat) : Rat) +
           (((counts.lookup "11").getD 0 : Nat) : Rat))) := by
  unfold get_psuccess
  cases h11 : counts.lookup "11" <;> cases h01 : counts.lookup "01"
  · simpa [dictGet, h11, h01] using pyDiv_handled 0 0
  · simpa [dictGet, h11, h01] using pyDiv_handled _ 0
  · simpa [dictGet, h11, h01] using pyDiv_handled 0 _
  · simpa [dictGet, h11, h01] using pyDiv_handled _ _

/-! ### C5: the assembled Grover program -/

set_option maxRecDepth 8192 in
/-- C5: the driver builds a single pass: input-state preparation, exactly
three repetitions of oracle followed by phase amplification, then exactly
one measurement of each of the three input qubits, with no gate after the
measurements. -/
theorem grover_single_pass :
    groverProgram.2 = none ∧
    groverProgram.1 =
      input_state [] 3 ++
        ((oracle [] 3 grover_formula).1 ++ (phase_amplification [] 3).1 ++
         (oracle [] 3 grover_formula).1 ++ (phase_amplification [] 3).1 ++
         (oracle [] 3 grover_formula).1 ++ (phase_amplification [] 3).1) ++
        [Gate.measure (Qubit.inp 0) 0, Gate.measure (Qubit.inp 1) 1,
         Gate.measure (Qubit.inp 2) 2] := by
  constructor
  · decide
  · decide

/-! ### C2: the exception-handler inventory -/

/-- C2 counterexample: the source contains a handler catching
ZeroDivisionError (inside `get_psuccess`), so the QiskitFinanceError catch
is not the only exception handler in the source. -/
theorem exception_handlers_cex :
    ExceptionHandler.mk
      "src/tutorial_3/.ipynb_checkpoints/Tutorial_3_Part_2_HHL-checkpoint.ipynb"
      "get_psuccess probability division" "ZeroDivisionError"
      ∈ sourceExceptionHandlers ∧
    "ZeroDivisionError" ≠ "QiskitFinanceError" := by
  constructor
  · simp [sourceExceptionHandlers]
  · decide

/-- C2 (amended): the source contains exactly four exception handlers: one
QiskitFinanceError catch around the network data fetch, and two KeyError
catches plus one ZeroDivisionError catch inside `get_psuccess` (which is
why `get_psuccess` returns 0 on an empty dictionary instead of raising). -/
theorem exception_handlers_inventory :
    sourceExceptionHandlers.length = 4 ∧
    sourceExceptionHandlers.countP (fun h => h.caught == "QiskitFinanceError") = 1 ∧
    sourceExceptionHandlers.countP (fun h => h.caught == "KeyError") = 2 ∧
    sourceExceptionHandlers.countP (fun h => h.caught == "ZeroDivisionError") = 1 ∧
    (sourceExceptionHandlers.filter
      (fun h => h.caught == "QiskitFinanceError")).map ExceptionHandler.context
      = ["WikipediaDataProvider fetch"] ∧
    get_psuccess [] = 0 := by
  refine ⟨by decide, by decide, by decide, by decide, by decide, by decide⟩

/-! ### C8: deterministic behaviour -/

/-- C8 counterexample: `maxcut_obj` exhibits deterministic, testable
behaviour: two evaluations on the same concrete input both return -4. -/
theorem deterministic_behavior_cex :
    maxcut_obj ['0', '1', '0', '1'] [(0, 1), (1, 2), (2, 3), (3, 0)] = -4 ∧
    maxcut_obj ['0', '1', '0', '1'] [(0, 1), (1, 2), (2, 3), (3, 0)] = -4 := by
  decide

/-- C8 (amended): the source does define pure functions with deterministic
behaviour: evaluations of `maxcut_obj` and `get_psuccess` on equal inputs
return equal outputs. -/
theorem source_functions_deterministic (x1 x2 : List Char)
    (G1 G2 : List (Nat × Nat)) (c1 c2 : List (String × Nat))
    (hx : x1 = x2) (hG : G1 = G2) (hc : c1 = c2) :
    maxcut_obj x1 G1 = maxcut_obj x2 G2 ∧ get_psuccess c1 = get_psuccess c2 := by
  subst hx
  subst hG
  subst hc
  exact ⟨rfl, rfl⟩

/-- Witness for C8 (amended) at concrete inputs. -/
theorem source_functions_deterministic_witness :
    (['0', '1'] : List Char) = ['0', '1'] ∧
    ([(0, 1)] : List (Nat × Nat)) = [(0, 1)] ∧
    ([("01", 3)] : List (String × Nat)) = [("01", 3)] ∧
    (maxcut_obj ['0', '1'] [(0, 1)] = maxcut_obj ['0', '1'] [(0, 1)] ∧
      get_psuccess [("01", 3)] = get_psuccess [("01", 3)]) :=
  ⟨rfl, rfl, rfl,
    source_functions_deterministic ['0', '1'] ['0', '1'] [(0, 1)] [(0, 1)]
      [("01", 3)] [("01", 3)] rfl rfl rfl⟩

/-! ### Helper lemmas about gate emission -/

theorem appendUntilErr_fst_append (gs : List (Option Gate)) :
    ∀ c : List Gate, ∃ t, (appendUntilErr c gs).1 = c ++ t := by
  induction gs with
  | nil => intro c; exact ⟨[], by simp [appendUntilErr]⟩
  | cons g rest ih =>
    intro c
    cases g with
    | none => exact ⟨[], by simp [appendUntilErr]⟩
    | some g0 =>
      obtain ⟨t, ht⟩ := ih (c ++ [g0])
      refine ⟨g0 :: t, ?_⟩
      simp only [appendUntilErr, ht, List.append_assoc, List.singleton_append]

theorem appendUntilErr_all_some (gs : List (Option Gate)) :
    ∀ c : List Gate, (∀ g ∈ gs, g.isSome) →
      appendUntilErr c gs = (c ++ gs.reduceOption, true) := by
  induction gs with
  | nil => intro c _; simp [appendUntilErr]
  | cons g rest ih =>
    intro c hall
    cases g with
    | none => simpa using hall none (by simp)
    | some g0 =>
      have hrest := ih (c ++ [g0]) (fun g hg => hall g (by simp [hg]))
      simp only [appendUntilErr, hrest, List.reduceOption_cons_of_some,
        List.append_assoc, List.singleton_append]

theorem n_controlled_Z_appends (circuit : List Gate) (controls : List Qubit)
    (target : Qubit) :
    ∃ t, (n_controlled_Z circuit controls target).1 = circuit ++ t := by
  unfold n_controlled_Z
  split_ifs <;>
    first
      | exact ⟨_, rfl⟩
      | exact ⟨[], (List.append_nil circuit).symm⟩

theorem oracle_appends (circuit : List Gate) (n : Nat) (F : List (List Int)) :
    ∃ t, (oracle circuit n F).1 = circuit ++ t := by
  unfold oracle
  obtain ⟨t1, h1⟩ := appendUntilErr_fst_append (clauseLoopGates n F.length 0 F) circuit
  rcases hA : appendUntilErr circuit (clauseLoopGates n F.length 0 F) with ⟨c1, ok1⟩
  rw [hA] at h1
  simp only at h1
  cases ok1 with
  | false => exact ⟨t1, by simp [hA, h1]⟩
  | true =>
    cases hD : dispatchGates F.length with
    | none => exact ⟨t1, by simp [hA, hD, h1]⟩
    | some ds =>
      obtain ⟨t2, h2⟩ :=
        appendUntilErr_fst_append (clauseLoopGates n F.length 0 F) (c1 ++ ds)
      rcases hB : appendUntilErr (c1 ++ ds) (clauseLoopGates n F.length 0 F)
        with ⟨c2, ok2⟩
      rw [hB] at h2
      simp only at h2
      refine ⟨t1 ++ ds ++ t2, ?_⟩
      simp only [hA, hD, hB]
      cases ok2 <;> simp [h2, h1, List.append_assoc]

theorem phase_amplification_appends (circuit : List Gate) (n : Nat) :
    ∃ t, (phase_amplification circuit n).1 = circuit ++ t := by
  unfold phase_amplification
  obtain ⟨t, ht⟩ := n_controlled_Z_appends
    (circuit ++ (List.range n).map (fun j => Gate.h (Qubit.inp j)) ++
      (List.range n).map (fun j => Gate.x (Qubit.inp j)))
    ((List.range (n - 1)).map (fun j => Qubit.inp j)) (Qubit.inp (n - 1))
  rcases hZ : n_controlled_Z
      (circuit ++ (List.range n).map (fun j => Gate.h (Qubit.inp j)) ++
        (List.range n).map (fun j => Gate.x (Qubit.inp j)))
      ((List.range (n - 1)).map (fun j => Qubit.inp j)) (Qubit.inp (n - 1))
    with ⟨c3, err⟩
  rw [hZ] at ht
  simp only at ht
  cases err with
  | some e =>
    refine ⟨(List.range n).map (fun j => Gate.h (Qubit.inp j)) ++
      ((List.range n).map (fun j => Gate.x (Qubit.inp j)) ++ t), ?_⟩
    simp only [hZ]
    rw [ht]
    simp [List.append_assoc]
  | none =>
    refine ⟨(List.range n).map (fun j => Gate.h (Qubit.inp j)) ++
      ((List.range n).map (fun j => Gate.x (Qubit.inp j)) ++ (t ++
      ((List.range n).map (fun j => Gate.x (Qubit.inp j)) ++
      (List.range n).map (fun j => Gate.h (Qubit.inp j))))), ?_⟩
    simp only [hZ]
    rw [ht]
    simp [List.append_assoc]

/-- C7: every circuit-construction function only appends to the circuit it
is given: the gate sequence before the call is an initial segment of the
gate sequence after the call, for every call (in particular every call
that returns normally). -/
theorem construction_functions_append_only (circuit : List Gate) (n : Nat)
    (controls : List Qubit) (target : Qubit) (F : List (List Int)) :
    (∃ t, input_state circuit n = circuit ++ t) ∧
    (∃ t, (oracle circuit n F).1 = circuit ++ t) ∧
    (∃ t, (phase_amplification circuit n).1 = circuit ++ t) ∧
    (∃ t, (n_controlled_Z circuit controls target).1 = circuit ++ t) :=
  ⟨⟨(List.range n).map (fun j => Gate.h (Qubit.inp j)) ++
      [Gate.x (Qubit.out 0), Gate.h (Qubit.out 0)],
    by simp [input_state]⟩, oracle_appends circuit n F,
    phase_amplification_appends circuit n,
    n_controlled_Z_appends circuit controls target⟩

/-! ### C10: the clause-count dispatch -/

theorem dispatchGates_none_iff (nc : Nat) :
    dispatchGates nc = none ↔ ¬(1 ≤ nc ∧ nc ≤ 3) := by
  unfold dispatchGates
  split_ifs <;> simp <;> omega

theorem clauseLoopGates_all_some (n : Nat) (hn : 2 < n) :
    ∀ (F : List (List Int)) (nc k : Nat),
      (∀ c ∈ F, ∀ l ∈ c, (litIdx n l).isSome) →
      ∀ g ∈ clauseLoopGates n nc k F, g.isSome := by
  intro F
  induction F with
  | nil => intro nc k _ g hg; simp [clauseLoopGates] at hg
  | cons c rest ih =>
    intro nc k hall g hg
    simp only [clauseLoopGates, List.mem_append] at hg
    rcases hg with hg | hg
    · simp only [clauseComputeGates, List.mem_append, List.mem_flatten,
        List.mem_map] at hg
      rcases hg with (⟨gs, ⟨l, hl, rfl⟩, hgin⟩ | hg) | ⟨gs, ⟨l, hl, rfl⟩, hgin⟩
      · have hsome := hall c (by simp) l hl
        unfold litComputeGates at hgin
        rcases hi : litIdx n l with _ | i
        · rw [hi] at hsome; simp at hsome
        · rw [hi] at hgin
          split_ifs at hgin <;> simp at hgin <;> rcases hgin with rfl | rfl <;> simp
      · unfold clauseCcxGates at hg
        rw [if_pos hn] at hg
        simp at hg
        rcases hg with rfl | rfl | rfl <;> simp
      · have hsome := hall c (by simp) l hl
        unfold litFlipbackGates at hgin
        by_cases hneg : l < 0
        · rw [if_pos hneg] at hgin
          have hnotpos : ¬l > 0 := by omega
          unfold litIdx at hsome
          rw [if_neg hnotpos] at hsome
          rcases hi : pyIdx n (-l - 1) with _ | i
          · rw [hi] at hsome; simp at hsome
          · rw [hi] at hgin; simp at hgin; subst hgin; simp
        · rw [if_neg hneg] at hgin; simp at hgin
    · exact ih nc (k + 1) (fun c2 hc2 => hall c2 (by simp [hc2])) g hg

theorem clauseLoopGates_ne_nil (n nc k : Nat) (hn : 2 < n) (c : List Int)
    (rest : List (List Int)) :
    (clauseLoopGates n nc k (c :: rest)).reduceOption ≠ [] := by
  have hmem : some (Gate.ccx (Qubit.inp 0) (Qubit.inp 1) (Qubit.aux nc)) ∈
      clauseLoopGates n nc k (c :: rest) := by
    simp only [clauseLoopGates, clauseComputeGates, clauseCcxGates, if_pos hn,
      List.mem_append]
    simp
  have : Gate.ccx (Qubit.inp 0) (Qubit.inp 1) (Qubit.aux nc) ∈
      (clauseLoopGates n nc k (c :: rest)).reduceOption :=
    List.reduceOption_mem_iff.mpr hmem
  exact List.ne_nil_of_mem this

/-- C10: with every literal of the formula resolvable on the input register
(n at least 3), `oracle` raises ValueError "We only allow at most 3
clauses" exactly when the number of clauses is not 1, 2 or 3 — in
particular the empty formula raises — and for more than 3 clauses the
per-clause gates have already been appended, so the circuit is modified
even though the call fails. -/
theorem oracle_valueError_iff (circuit : List Gate) (n : Nat)
    (F : List (List Int)) (hn : 3 ≤ n)
    (hlit : ∀ c ∈ F, ∀ l ∈ c, (litIdx n l).isSome) :
    ((oracle circuit n F).2 =
        some (PyError.valueError "We only allow at most 3 clauses") ↔
      ¬(1 ≤ F.length ∧ F.length ≤ 3)) ∧
    (3 < F.length → ∃ t, t ≠ [] ∧ (oracle circuit n F).1 = circuit ++ t) := by
  have hn2 : 2 < n := hn
  have hsome := clauseLoopGates_all_some n hn2 F F.length 0 hlit
  have hA := appendUntilErr_all_some (clauseLoopGates n F.length 0 F) circuit hsome
  constructor
  · unfold oracle
    simp only [hA]
    cases hD : dispatchGates F.length with
    | none =>
      have := (dispatchGates_none_iff F.length).mp hD
      simp [this]
    | some ds =>
      have hB := appendUntilErr_all_some (clauseLoopGates n F.length 0 F)
        (circuit ++ ((clauseLoopGates n F.length 0 F).reduceOption ++ ds)) hsome
      have hD2 : 1 ≤ F.length ∧ F.length ≤ 3 := by
        by_contra hcon
        rw [← dispatchGates_none_iff] at hcon
        rw [hcon] at hD
        exact Option.noConfusion hD
      simp [hB, hD2]
  · intro h3
    rcases F with _ | ⟨c, rest⟩
    · simp at h3
    · unfold oracle
      simp only [hA]
      have hD : dispatchGates (c :: rest).length = none := by
        rw [dispatchGates_none_iff]
        simp only [List.length_cons] at h3 ⊢
        omega
      simp only [hD]
      exact ⟨_, clauseLoopGates_ne_nil n (c :: rest).length 0 hn2 c rest, rfl⟩

/-- Witness for C10: a 4-clause formula with valid literals raises the
ValueError and leaves the compute-pass gates appended. -/
theorem oracle_valueError_iff_witness :
    3 ≤ 3 ∧
    (∀ c ∈ [[(1 : Int)], [1], [1], [1]], ∀ l ∈ c, (litIdx 3 l).isSome) ∧
    (((oracle [] 3 [[1], [1], [1], [1]]).2 =
        some (PyError.valueError "We only allow at most 3 clauses") ↔
      ¬(1 ≤ ([[(1 : Int)], [1], [1], [1]]).length ∧
        ([[(1 : Int)], [1], [1], [1]]).length ≤ 3)) ∧
     (3 < ([[(1 : Int)], [1], [1], [1]]).length →
        ∃ t, t ≠ [] ∧ (oracle [] 3 [[1], [1], [1], [1]]).1 = [] ++ t)) :=
  ⟨by decide, by decide,
    oracle_valueError_iff [] 3 [[1], [1], [1], [1]] (by decide) (by decide)⟩

/-! ### List update helpers -/

theorem getD_set_self (l : List Bool) :
    ∀ (i : Nat) (b : Bool), i < l.length → (l.set i b).getD i false = b := by
  induction l with
  | nil => intro i b h; simp at h
  | cons a rest ih =>
    intro i b h
    cases i with
    | zero => rfl
    | succ j => exact ih j b (by simpa using h)

theorem getD_set_ne (l : List Bool) :
    ∀ (i j : Nat) (b : Bool), i ≠ j → (l.set i b).getD j false = l.getD j false := by
  induction l with
  | nil => intro i j b _; simp
  | cons a rest ih =>
    intro i j b hne
    cases i with
    | zero =>
      cases j with
      | zero => exact absurd rfl hne
      | succ j2 => rfl
    | succ i2 =>
      cases j with
      | zero => rfl
      | succ j2 => exact ih i2 j2 b (by omega)

theorem set_getD_id (l : List Bool) :
    ∀ i : Nat, i < l.length → l.set i (l.getD i false) = l := by
  induction l with
  | nil => intro i h; simp at h
  | cons a rest ih =>
    intro i h
    cases i with
    | zero => rfl
    | succ j => simpa [List.set] using ih j (by simpa using h)

theorem runGates_append (a b : List Gate) :
    ∀ s : OState, runGates (a ++ b) s =
      (runGates a s).bind (fun t => runGates b t) := by
  induction a with
  | nil => intro s; simp [runGates]
  | cons g rest ih =>
    intro s
    simp only [List.cons_append, runGates]
    cases applyGate g s with
    | none => simp
    | some s1 => simpa using ih s1

/-! ### Semantics of the clause-block gates -/

theorem runGates_litLoop (n k : Nat) :
    ∀ c : List Int, (∀ l ∈ c, (litIdx n l).isSome) →
      ∀ s : OState, k < s.aux.length →
        runGates ((c.map (litComputeGates n k)).flatten.reduceOption) s =
          some ⟨flipNonpos n c s.inp, s.out,
            s.aux.set k (xor (s.aux.getD k false) (clauseAcc n c s.inp))⟩ := by
  intro c
  induction c with
  | nil =>
    intro _ s hk
    simp only [List.map_nil, List.flatten_nil, List.reduceOption_nil, runGates,
      flipNonpos, clauseAcc, Bool.xor_false, set_getD_id s.aux k hk]
  | cons l rest ih =>
    intro hv s hk
    have hsome := hv l (by simp)
    have hrest : ∀ l2 ∈ rest, (litIdx n l2).isSome :=
      fun l2 h2 => hv l2 (by simp [h2])
    rcases hi : litIdx n l with _ | i
    · rw [hi] at hsome; simp at hsome
    · by_cases hpos : l > 0
      · have hpy : pyIdx n (l - 1) = some i := by
          unfold litIdx at hi
          rwa [if_pos hpos] at hi
        have hgates : litComputeGates n k l =
            [some (Gate.cx (Qubit.inp i) (Qubit.aux k))] := by
          unfold litComputeGates
          rw [hi]
          simp [hpos]
        have hsplit : ((l :: rest).map (litComputeGates n k)).flatten.reduceOption =
            Gate.cx (Qubit.inp i) (Qubit.aux k) ::
              (rest.map (litComputeGates n k)).flatten.reduceOption := by
          simp [hgates]
        rw [hsplit]
        simp only [runGates, applyGate, getQ, setQ]
        rw [ih hrest _ (by simpa using hk)]
        simp only [flipNonpos, clauseAcc, if_pos hpos, hpy]
        congr 2
        rw [List.set_set, getD_set_self s.aux k _ hk, Bool.xor_assoc]
      · have hpy : pyIdx n (-l - 1) = some i := by
          unfold litIdx at hi
          rwa [if_neg hpos] at hi
        have hgates : litComputeGates n k l =
            [some (Gate.x (Qubit.inp i)),
             some (Gate.cx (Qubit.inp i) (Qubit.aux k))] := by
          unfold litComputeGates
          rw [hi]
          simp [hpos]
        have hsplit : ((l :: rest).map (litComputeGates n k)).flatten.reduceOption =
            Gate.x (Qubit.inp i) :: Gate.cx (Qubit.inp i) (Qubit.aux k) ::
              (rest.map (litComputeGates n k)).flatten.reduceOption := by
          simp [hgates]
        rw [hsplit]
        simp only [runGates, applyGate, getQ, setQ]
        rw [ih hrest _ (by simpa using hk)]
        simp only [flipNonpos, clauseAcc, if_neg hpos, hpy]
        congr 2
        rw [List.set_set, getD_set_self s.aux k _ hk, Bool.xor_assoc]

theorem runGates_ccxTriple (n nc k : Nat) (hn : 2 < n) (hk : k ≠ nc)
    (s : OState) (hkl : k < s.aux.length) (hncl : nc < s.aux.length) :
    runGates (clauseCcxGates n nc k).reduceOption s =
      some ⟨s.inp, s.out,
        s.aux.set k (xor (s.aux.getD k false)
          (s.inp.getD 2 false &&
            (xor (s.aux.getD nc false)
              (s.inp.getD 0 false && s.inp.getD 1 false))))⟩ := by
  have hgates : (clauseCcxGates n nc k).reduceOption =
      [Gate.ccx (Qubit.inp 0) (Qubit.inp 1) (Qubit.aux nc),
       Gate.ccx (Qubit.inp 2) (Qubit.aux nc) (Qubit.aux k),
       Gate.ccx (Qubit.inp 0) (Qubit.inp 1) (Qubit.aux nc)] := by
    unfold clauseCcxGates
    rw [if_pos hn]
    simp
  rw [hgates]
  simp only [runGates, applyGate, getQ, setQ, Option.some.injEq]
  rw [getD_set_ne s.aux nc k _ (Ne.symm hk)]
  rw [getD_set_ne _ k nc _ hk]
  rw [getD_set_self s.aux nc _ hncl]
  rw [Bool.xor_assoc, Bool.xor_self, Bool.xor_false]
  rw [List.set_comm _ _ _ hk]
  rw [List.set_set]
  rw [set_getD_id s.aux nc hncl]

theorem runGates_flipback (n : Nat) :
    ∀ c : List Int, (∀ l ∈ c, (litIdx n l).isSome) →
      ∀ s : OState,
        runGates ((c.map (litFlipbackGates n)).flatten.reduceOption) s =
          some ⟨flipNeg n c s.inp, s.out, s.aux⟩ := by
  intro c
  induction c with
  | nil => intro _ s; simp [runGates, flipNeg]
  | cons l rest ih =>
    intro hv s
    have hsome := hv l (by simp)
    have hrest : ∀ l2 ∈ rest, (litIdx n l2).isSome :=
      fun l2 h2 => hv l2 (by simp [h2])
    by_cases hneg : l < 0
    · have hnpos : ¬ l > 0 := by omega
      have hpy : (pyIdx n (-l - 1)).isSome := by
        unfold litIdx at hsome
        rwa [if_neg hnpos] at hsome
      rcases hi : pyIdx n (-l - 1) with _ | i
      · rw [hi] at hpy; simp at hpy
      · have hgates : litFlipbackGates n l = [some (Gate.x (Qubit.inp i))] := by
          unfold litFlipbackGates
          rw [if_pos hneg, hi]
        have hsplit :
            ((l :: rest).map (litFlipbackGates n)).flatten.reduceOption =
              Gate.x (Qubit.inp i) ::
                (rest.map (litFlipbackGates n)).flatten.reduceOption := by
          simp [hgates]
        rw [hsplit]
        simp only [runGates, applyGate, getQ, setQ]
        rw [ih hrest _]
        simp only [flipNeg, if_pos hneg, hi]
    · have hgates : litFlipbackGates n l = [] := by
        unfold litFlipbackGates
        rw [if_neg hneg]
      have hsplit :
          ((l :: rest).map (litFlipbackGates n)).flatten.reduceOption =
            (rest.map (litFlipbackGates n)).flatten.reduceOption := by
        simp [hgates]
      rw [hsplit, ih hrest s]
      simp only [flipNeg, if_neg hneg]

theorem pyIdx_lt_size (size : Nat) (x : Int) (j : Nat)
    (h : pyIdx size x = some j) : j < size := by
  unfold pyIdx at h
  split_ifs at h with h1 h2
  · obtain ⟨h1a, h1b⟩ := h1
    simp only [Option.some.injEq] at h
    omega
  · obtain ⟨h2a, h2b⟩ := h2
    simp only [Option.some.injEq] at h
    omega

theorem flipNonpos_length (n : Nat) :
    ∀ (c : List Int) (v : List Bool), (flipNonpos n c v).length = v.length := by
  intro c
  induction c with
  | nil => intro v; rfl
  | cons l rest ih =>
    intro v
    unfold flipNonpos
    by_cases hpos : l > 0
    · rw [if_pos hpos]; exact ih v
    · rw [if_neg hpos]
      rcases hpy : pyIdx n (-l - 1) with _ | j
      · simp only [hpy]; exact ih v
      · simp only [hpy]
        rw [ih]
        simp

theorem flipNeg_length (n : Nat) :
    ∀ (c : List Int) (v : List Bool), (flipNeg n c v).length = v.length := by
  intro c
  induction c with
  | nil => intro v; rfl
  | cons l rest ih =>
    intro v
    unfold flipNeg
    by_cases hneg : l < 0
    · rw [if_pos hneg]
      rcases hpy : pyIdx n (-l - 1) with _ | j
      · simp only [hpy]; exact ih v
      · simp only [hpy]
        rw [ih]
        simp
    · rw [if_neg hneg]; exact ih v

theorem flipNonpos_getD (n : Nat) :
    ∀ (c : List Int) (v : List Bool) (i : Nat), n ≤ v.length → i < v.length →
      (flipNonpos n c v).getD i false =
        xor (v.getD i false) (nonposParity n c i) := by
  intro c
  induction c with
  | nil => intro v i _ _; simp [flipNonpos, nonposParity]
  | cons l rest ih =>
    intro v i hn hi
    unfold flipNonpos nonposParity
    by_cases hpos : l > 0
    · rw [if_pos hpos]
      have hhead : ((!(decide (l > 0))) && (pyIdx n (-l - 1) == some i)) = false := by
        simp [hpos]
      rw [hhead, Bool.false_xor]
      exact ih v i hn hi
    · rw [if_neg hpos]
      have hnp : (!(decide (l > 0))) = true := by simp [hpos]
      rcases hpy : pyIdx n (-l - 1) with _ | j
      · simp only [hpy]
        simpa using ih v i hn hi
      · simp only [hpy, hnp, Bool.true_and]
        have hj : j < v.length := lt_of_lt_of_le (pyIdx_lt_size n _ j hpy) hn
        by_cases hji : j = i
        · rw [ih (v.set j (!(v.getD j false))) i (by simpa using hn) (by simpa using hi)]
          rw [hji, getD_set_self v i _ hi]
          simp only [beq_self_eq_true]
          cases v.getD i false <;> cases nonposParity n rest i <;> rfl
        · rw [ih (v.set j (!(v.getD j false))) i (by simpa using hn) (by simpa using hi)]
          rw [getD_set_ne v j i _ hji]
          have hb : (some j == some i) = false := by simp [hji]
          rw [hb]
          simp

theorem flipNeg_getD (n : Nat) :
    ∀ (c : List Int) (v : List Bool) (i : Nat), n ≤ v.length → i < v.length →
      (flipNeg n c v).getD i false =
        xor (v.getD i false) (negParity n c i) := by
  intro c
  induction c with
  | nil => intro v i _ _; simp [flipNeg, negParity]
  | cons l rest ih =>
    intro v i hn hi
    unfold flipNeg negParity
    by_cases hneg : l < 0
    · rw [if_pos hneg]
      have hnp : decide (l < 0) = true := by simp [hneg]
      rcases hpy : pyIdx n (-l - 1) with _ | j
      · simp only [hpy]
        simpa using ih v i hn hi
      · simp only [hpy, hnp, Bool.true_and]
        have hj : j < v.length := lt_of_lt_of_le (pyIdx_lt_size n _ j hpy) hn
        by_cases hji : j = i
        · rw [ih (v.set j (!(v.getD j false))) i (by simpa using hn) (by simpa using hi)]
          rw [hji, getD_set_self v i _ hi]
          simp only [beq_self_eq_true]
          cases v.getD i false <;> cases negParity n rest i <;> rfl
        · rw [ih (v.set j (!(v.getD j false))) i (by simpa using hn) (by simpa using hi)]
          rw [getD_set_ne v j i _ hji]
          have hb : (some j == some i) = false := by simp [hji]
          rw [hb]
          simp
    · rw [if_neg hneg]
      have hhead : (decide (l < 0) && (pyIdx n (-l - 1) == some i)) = false := by
        simp [hneg]
      rw [hhead, Bool.false_xor]
      exact ih v i hn hi

theorem parity_eq_of_nonzero (n : Nat) :
    ∀ c : List Int, (∀ l ∈ c, l ≠ 0) → ∀ i : Nat,
      nonposParity n c i = negParity n c i := by
  intro c
  induction c with
  | nil => intro _ i; rfl
  | cons l rest ih =>
    intro hz i
    have hl : l ≠ 0 := hz l (by simp)
    have hrest : ∀ l2 ∈ rest, l2 ≠ 0 := fun l2 h2 => hz l2 (by simp [h2])
    unfold nonposParity negParity
    rw [ih hrest i]
    have hbool : (!(decide (l > 0))) = decide (l < 0) := by
      by_cases hpos : l > 0
      · have h2 : ¬ l < 0 := by omega
        simp [hpos, h2]
      · have h2 : l < 0 := by omega
        simp [hpos, h2]
    rw [hbool]

theorem flipNeg_flipNonpos (n : Nat) (c : List Int)
    (hz : ∀ l ∈ c, l ≠ 0) (v : List Bool) (hn : n ≤ v.length) :
    flipNeg n c (flipNonpos n c v) = v := by
  apply List.ext_getElem
  · rw [flipNeg_length, flipNonpos_length]
  · intro i h1 h2
    rw [← List.getD_eq_getElem _ false h1, ← List.getD_eq_getElem _ false h2]
    rw [flipNeg_getD n c (flipNonpos n c v) i
      (by rw [flipNonpos_length]; exact hn)
      (by rw [flipNonpos_length]; exact h2)]
    rw [flipNonpos_getD n c v i hn h2]
    rw [parity_eq_of_nonzero n c hz i]
    rw [Bool.xor_assoc, Bool.xor_self, Bool.xor_false]

theorem runGates_clauseBlock (n nc k : Nat) (c : List Int) (hn : 2 < n)
    (hk : k ≠ nc) (hv : ∀ l ∈ c, (litIdx n l).isSome)
    (hz : ∀ l ∈ c, l ≠ 0) (s : OState) (hkl : k < s.aux.length)
    (hncl : nc < s.aux.length) (hlen : s.inp.length = n) :
    runGates (clauseComputeGates n nc k c).reduceOption s =
      some ⟨s.inp, s.out,
        s.aux.set k (xor (s.aux.getD k false)
          (clauseFun n c s.inp (s.aux.getD nc false)))⟩ := by
  have hlen2 : n ≤ s.inp.length := by omega
  unfold clauseComputeGates
  rw [List.reduceOption_append, List.reduceOption_append, runGates_append,
    runGates_append, runGates_litLoop n k c hv s hkl]
  simp only [Option.some_bind]
  rw [runGates_ccxTriple n nc k hn hk
    ⟨flipNonpos n c s.inp, s.out,
      s.aux.set k (xor (s.aux.getD k false) (clauseAcc n c s.inp))⟩
    (by simpa using hkl) (by simpa using hncl)]
  simp only [Option.some_bind]
  simp only [getD_set_self s.aux k _ hkl, getD_set_ne s.aux k nc _ hk,
    List.set_set]
  rw [runGates_flipback n c hv
    ⟨flipNonpos n c s.inp, s.out,
      s.aux.set k (xor (xor (s.aux.getD k false) (clauseAcc n c s.inp))
        ((flipNonpos n c s.inp).getD 2 false &&
          (xor (s.aux.getD nc false)
            ((flipNonpos n c s.inp).getD 0 false &&
              (flipNonpos n c s.inp).getD 1 false))))⟩]
  rw [flipNeg_flipNonpos n c hz s.inp hlen2]
  unfold clauseFun
  rw [Bool.xor_assoc]

theorem runGates_clauseLoop (n nc : Nat) (hn : 2 < n) :
    ∀ (F : List (List Int)) (k : Nat) (s : OState),
      (∀ c ∈ F, ∀ l ∈ c, (litIdx n l).isSome) →
      (∀ c ∈ F, ∀ l ∈ c, l ≠ 0) →
      k + F.length ≤ nc → nc < s.aux.length → s.inp.length = n →
      runGates (clauseLoopGates n nc k F).reduceOption s =
        some ⟨s.inp, s.out,
          passAux n s.inp (s.aux.getD nc false) k F s.aux⟩ := by
  intro F
  induction F with
  | nil =>
    intro k s _ _ _ _ _
    simp [clauseLoopGates, runGates, passAux]
  | cons c rest ih =>
    intro k s hv hz hkn hncl hlen
    have hkc : k ≠ nc := by simp only [List.length_cons] at hkn; omega
    have hkl : k < s.aux.length := by
      simp only [List.length_cons] at hkn; omega
    unfold clauseLoopGates
    rw [List.reduceOption_append, runGates_append,
      runGates_clauseBlock n nc k c hn hkc (hv c (by simp)) (hz c (by simp))
        s hkl hncl hlen]
    simp only [Option.some_bind]
    rw [ih (k + 1)
      ⟨s.inp, s.out,
        s.aux.set k (xor (s.aux.getD k false)
          (clauseFun n c s.inp (s.aux.getD nc false)))⟩
      (fun c2 h2 => hv c2 (by simp [h2])) (fun c2 h2 => hz c2 (by simp [h2]))
      (by simp only [List.length_cons] at hkn; omega) (by simpa using hncl)
      (by simpa using hlen)]
    simp only [passAux]
    rw [getD_set_ne s.aux k nc _ hkc]

/-! ### The clause-loop pass on the auxiliary register -/

theorem passAux_length (n : Nat) (x : List Bool) (anc : Bool) :
    ∀ (F : List (List Int)) (k : Nat) (a : List Bool),
      (passAux n x anc k F a).length = a.length := by
  intro F
  induction F with
  | nil => intro k a; rfl
  | cons c rest ih =>
    intro k a
    unfold passAux
    rw [ih]
    simp

theorem passAux_set_comm (n : Nat) (x : List Bool) (anc : Bool) :
    ∀ (F : List (List Int)) (k j : Nat) (b : Bool) (a : List Bool), j < k →
      passAux n x anc k F (a.set j b) = (passAux n x anc k F a).set j b := by
  intro F
  induction F with
  | nil => intro k j b a _; rfl
  | cons c rest ih =>
    intro k j b a hjk
    unfold passAux
    rw [getD_set_ne a j k _ (by omega)]
    rw [List.set_comm _ _ _ (by omega : j ≠ k)]
    exact ih (k + 1) j b _ (by omega)

theorem passAux_getD_out (n : Nat) (x : List Bool) (anc : Bool) :
    ∀ (F : List (List Int)) (k : Nat) (a : List Bool) (j : Nat),
      (j < k ∨ k + F.length ≤ j) →
      (passAux n x anc k F a).getD j false = a.getD j false := by
  intro F
  induction F with
  | nil => intro k a j _; rfl
  | cons c rest ih =>
    intro k a j hj
    unfold passAux
    rw [ih (k + 1) _ j (by simp only [List.length_cons] at hj; omega)]
    exact getD_set_ne a k j _ (by simp only [List.length_cons] at hj; omega)

theorem passAux_passAux (n : Nat) (x : List Bool) (anc : Bool) :
    ∀ (F : List (List Int)) (k : Nat) (a : List Bool),
      k + F.length ≤ a.length →
      passAux n x anc k F (passAux n x anc k F a) = a := by
  intro F
  induction F with
  | nil => intro k a _; rfl
  | cons c rest ih =>
    intro k a hlen
    have hk : k < a.length := by simp only [List.length_cons] at hlen; omega
    have hrest : k + 1 + rest.length ≤ a.length := by
      simp only [List.length_cons] at hlen; omega
    rw [passAux]
    rw [passAux]
    rw [passAux_set_comm n x anc rest (k + 1) k _ a (by omega)]
    rw [getD_set_self _ k _ (by rw [passAux_length]; exact hk)]
    rw [List.set_set]
    rw [Bool.xor_assoc, Bool.xor_self, Bool.xor_false]
    rw [passAux_set_comm n x anc rest (k + 1) k _ _ (by omega)]
    rw [ih (k + 1) _ hrest]
    exact set_getD_id a k hk

theorem getD_replicate_false (m j : Nat) :
    (List.replicate m false).getD j false = false := by
  induction m generalizing j with
  | zero => rfl
  | succ m2 ih =>
    cases j with
    | zero => rfl
    | succ j2 => exact ih j2

/-! ### Semantics of the dispatch gates and oracle decomposition -/

theorem runGates_dispatch1 (s : OState) :
    runGates [Gate.cx (Qubit.aux 0) (Qubit.out 0)] s =
      some ⟨s.inp,
        s.out.set 0 (xor (s.out.getD 0 false) (s.aux.getD 0 false)), s.aux⟩ := by
  simp [runGates, applyGate, getQ, setQ]

theorem runGates_dispatch2 (s : OState) :
    runGates [Gate.ccx (Qubit.aux 0) (Qubit.aux 1) (Qubit.out 0)] s =
      some ⟨s.inp,
        s.out.set 0 (xor (s.out.getD 0 false)
          (s.aux.getD 0 false && s.aux.getD 1 false)), s.aux⟩ := by
  simp [runGates, applyGate, getQ, setQ]

theorem runGates_dispatch3 (s : OState) (h3 : 3 < s.aux.length) :
    runGates [Gate.ccx (Qubit.aux 0) (Qubit.aux 1) (Qubit.aux 3),
      Gate.ccx (Qubit.aux 2) (Qubit.aux 3) (Qubit.out 0),
      Gate.ccx (Qubit.aux 0) (Qubit.aux 1) (Qubit.aux 3)] s =
      some ⟨s.inp,
        s.out.set 0 (xor (s.out.getD 0 false)
          (s.aux.getD 2 false &&
            (xor (s.aux.getD 3 false)
              (s.aux.getD 0 false && s.aux.getD 1 false)))), s.aux⟩ := by
  simp only [runGates, applyGate, getQ, setQ, Option.some.injEq]
  rw [getD_set_ne s.aux 3 2 _ (by omega)]
  rw [getD_set_self s.aux 3 _ h3]
  rw [getD_set_ne s.aux 3 0 _ (by omega), getD_set_ne s.aux 3 1 _ (by omega)]
  rw [Bool.xor_assoc, Bool.xor_self, Bool.xor_false]
  rw [List.set_set, set_getD_id s.aux 3 h3]

theorem oracle_ok_decomp (n : Nat) (F : List (List Int)) (ds : List Gate)
    (hsome : ∀ g ∈ clauseLoopGates n F.length 0 F, g.isSome)
    (hD : dispatchGates F.length = some ds) :
    oracle [] n F =
      ((clauseLoopGates n F.length 0 F).reduceOption ++ ds ++
        (clauseLoopGates n F.length 0 F).reduceOption, none) := by
  unfold oracle
  have hA := appendUntilErr_all_some (clauseLoopGates n F.length 0 F) [] hsome
  have hB := appendUntilErr_all_some (clauseLoopGates n F.length 0 F)
    ((clauseLoopGates n F.length 0 F).reduceOption ++ ds) hsome
  simp only [hA, hD, List.nil_append, hB]

/-! ### Success implies validity -/

theorem appendUntilErr_snd_true (gs : List (Option Gate)) :
    ∀ c : List Gate, (appendUntilErr c gs).2 = true → ∀ g ∈ gs, g.isSome := by
  induction gs with
  | nil => intro c _ g hg; simp at hg
  | cons g0 rest ih =>
    intro c htrue g hg
    cases g0 with
    | none => simp [appendUntilErr] at htrue
    | some a =>
      rcases List.mem_cons.mp hg with rfl | hg2
      · simp
      · exact ih (c ++ [a]) (by simpa [appendUntilErr] using htrue) g hg2

theorem clauseLoopGates_some_inv (n : Nat) :
    ∀ (F : List (List Int)) (nc k : Nat),
      (∀ g ∈ clauseLoopGates n nc k F, g.isSome) →
      (∀ c ∈ F, ∀ l ∈ c, (litIdx n l).isSome) ∧ (F = [] ∨ 2 < n) := by
  intro F
  induction F with
  | nil => intro nc k _; exact ⟨fun c hc => absurd hc (by simp), Or.inl rfl⟩
  | cons c rest ih =>
    intro nc k hall
    have hccx : ∀ g ∈ clauseCcxGates n nc k, g.isSome := by
      intro g hg
      apply hall
      unfold clauseLoopGates clauseComputeGates
      simp only [List.mem_append]
      left
      left
      right
      exact hg
    have hn : 2 < n := by
      by_contra hcon
      unfold clauseCcxGates at hccx
      rw [if_neg hcon] at hccx
      by_cases h1 : 1 < n
      · rw [if_pos h1] at hccx
        have := hccx none (by simp)
        simp at this
      · rw [if_neg h1] at hccx
        have := hccx none (by simp)
        simp at this
    refine ⟨?_, Or.inr hn⟩
    intro c2 hc2 l hl
    rcases List.mem_cons.mp hc2 with rfl | hc3
    · by_contra hno
      have hlit : litComputeGates n k l = [none] := by
        unfold litComputeGates
        rcases hli : litIdx n l with _ | i
        · rfl
        · rw [hli] at hno; simp at hno
      have hmem : (none : Option Gate) ∈ clauseLoopGates n nc k (c2 :: rest) := by
        unfold clauseLoopGates clauseComputeGates
        simp only [List.mem_append]
        left
        left
        left
        rw [List.mem_flatten]
        exact ⟨[none], by
          rw [← hlit]
          exact List.mem_map_of_mem _ hl, by simp⟩
      have := hall none hmem
      simp at this
    · exact (ih nc (k + 1)
        (fun g hg => hall g (by unfold clauseLoopGates; simp [hg]))).1 c2 hc3 l hl

theorem oracle_none_inv (n : Nat) (F : List (List Int))
    (hacc : (oracle [] n F).2 = none) :
    (∀ g ∈ clauseLoopGates n F.length 0 F, g.isSome) ∧
      1 ≤ F.length ∧ F.length ≤ 3 := by
  unfold oracle at hacc
  rcases hA : appendUntilErr [] (clauseLoopGates n F.length 0 F) with ⟨c1, ok1⟩
  simp only [hA] at hacc
  cases ok1 with
  | false => simp at hacc
  | true =>
    have hsome := appendUntilErr_snd_true (clauseLoopGates n F.length 0 F) []
      (by rw [hA])
    refine ⟨hsome, ?_⟩
    cases hD : dispatchGates F.length with
    | none => rw [hD] at hacc; simp at hacc
    | some ds =>
      by_contra hcon
      rw [← dispatchGates_none_iff] at hcon
      rw [hcon] at hD
      exact Option.noConfusion hD

/-! ### Clause value on well-formed clauses -/

theorem goodClause_mem_vals (c : List Int) (hg : goodClause c) :
    ∀ l ∈ c, l = 1 ∨ l = -1 ∨ l = 2 ∨ l = -2 ∨ l = 3 ∨ l = -3 := by
  intro l hl
  have hmem : l.natAbs ∈ [1, 2, 3] := by
    have hmap : l.natAbs ∈ c.map Int.natAbs := List.mem_map_of_mem _ hl
    exact hg.mem_iff.mp hmap
  simp only [List.mem_cons, List.mem_singleton, List.not_mem_nil, or_false] at hmem
  rcases hmem with h | h | h <;>
    rcases Int.natAbs_eq_iff.mp h with h2 | h2 <;> subst h2 <;> norm_num

theorem goodClause_valid (c : List Int) (hg : goodClause c) :
    ∀ l ∈ c, (litIdx 3 l).isSome := by
  intro l hl
  rcases goodClause_mem_vals c hg l hl with rfl | rfl | rfl | rfl | rfl | rfl <;>
    decide

theorem goodClause_nonzero (c : List Int) (hg : goodClause c) :
    ∀ l ∈ c, l ≠ 0 := by
  intro l hl
  rcases goodClause_mem_vals c hg l hl with rfl | rfl | rfl | rfl | rfl | rfl <;>
    decide

theorem clauseFun_goodClause (c : List Int) (hg : goodClause c)
    (x0 x1 x2 : Bool) :
    clauseFun 3 c [x0, x1, x2] false = exactlyOneTrue [x0, x1, x2] c := by
  have hlen : c.length = 3 := by
    have hp := hg.length_eq
    simpa using hp
  obtain ⟨a, b, d, rfl⟩ := List.length_eq_three.mp hlen
  have ha := goodClause_mem_vals _ hg a (by simp)
  have hb := goodClause_mem_vals _ hg b (by simp)
  have hd := goodClause_mem_vals _ hg d (by simp)
  rcases ha with rfl | rfl | rfl | rfl | rfl | rfl <;>
    rcases hb with rfl | rfl | rfl | rfl | rfl | rfl <;>
      rcases hd with rfl | rfl | rfl | rfl | rfl | rfl <;>
        first
          | exact absurd hg (by decide)
          | (revert x0 x1 x2; decide)

/-! ### C1 and C9: the oracle on basis states -/

theorem oracle_marks_one_clause (c0 : List Int) (x0 x1 x2 b : Bool)
    (hgood : goodClause c0) :
    (oracle [] 3 [c0]).2 = none ∧
    ∃ s2 : OState, runGates (oracle [] 3 [c0]).1
        ⟨[x0, x1, x2], [b], List.replicate 2 false⟩ = some s2 ∧
      s2.out = [xor b (formulaHolds [x0, x1, x2] [c0])] := by
  have hv : ∀ c ∈ [c0], ∀ l ∈ c, (litIdx 3 l).isSome := by
    intro c hc
    rcases List.mem_singleton.mp hc with rfl
    exact goodClause_valid _ hgood
  have hz : ∀ c ∈ [c0], ∀ l ∈ c, l ≠ 0 := by
    intro c hc
    rcases List.mem_singleton.mp hc with rfl
    exact goodClause_nonzero _ hgood
  have hsome := clauseLoopGates_all_some 3 (by omega) [c0] 1 0 hv
  have hD : dispatchGates [c0].length =
      some [Gate.cx (Qubit.aux 0) (Qubit.out 0)] := rfl
  have hdec := oracle_ok_decomp 3 [c0] _ hsome hD
  simp only [List.length_singleton] at hdec
  rw [hdec]
  refine ⟨rfl, ?_⟩
  simp only
  rw [runGates_append, runGates_append]
  rw [runGates_clauseLoop 3 1 (by omega) [c0] 0
    ⟨[x0, x1, x2], [b], List.replicate 2 false⟩ hv hz (by simp) (by simp) rfl]
  have hpass1 : passAux 3 [x0, x1, x2]
      ((List.replicate 2 false).getD 1 false) 0 [c0] (List.replicate 2 false) =
      [clauseFun 3 c0 [x0, x1, x2] false, false] := by
    simp [passAux]
  rw [hpass1]
  simp only [Option.some_bind]
  rw [runGates_dispatch1 ⟨[x0, x1, x2], [b],
    [clauseFun 3 c0 [x0, x1, x2] false, false]⟩]
  simp only [Option.some_bind]
  rw [runGates_clauseLoop 3 1 (by omega) [c0] 0
    ⟨[x0, x1, x2],
      [b].set 0 (xor ([b].getD 0 false)
        ([clauseFun 3 c0 [x0, x1, x2] false, false].getD 0 false)),
      [clauseFun 3 c0 [x0, x1, x2] false, false]⟩ hv hz (by simp) (by simp) rfl]
  have hpass2 : passAux 3 [x0, x1, x2]
      ([clauseFun 3 c0 [x0, x1, x2] false, false].getD 1 false) 0 [c0]
      [clauseFun 3 c0 [x0, x1, x2] false, false] = [false, false] := by
    simp [passAux]
  rw [hpass2]
  refine ⟨_, rfl, ?_⟩
  simp only
  have hval := clauseFun_goodClause c0 hgood x0 x1 x2
  simp [formulaHolds, hval]

theorem oracle_marks_two_clauses (c0 c1 : List Int) (x0 x1 x2 b : Bool)
    (hg0 : goodClause c0) (hg1 : goodClause c1) :
    (oracle [] 3 [c0, c1]).2 = none ∧
    ∃ s2 : OState, runGates (oracle [] 3 [c0, c1]).1
        ⟨[x0, x1, x2], [b], List.replicate 3 false⟩ = some s2 ∧
      s2.out = [xor b (formulaHolds [x0, x1, x2] [c0, c1])] := by
  have hv : ∀ c ∈ [c0, c1], ∀ l ∈ c, (litIdx 3 l).isSome := by
    intro c hc
    rcases List.mem_cons.mp hc with rfl | hc2
    · exact goodClause_valid _ hg0
    · rcases List.mem_singleton.mp hc2 with rfl
      exact goodClause_valid _ hg1
  have hz : ∀ c ∈ [c0, c1], ∀ l ∈ c, l ≠ 0 := by
    intro c hc
    rcases List.mem_cons.mp hc with rfl | hc2
    · exact goodClause_nonzero _ hg0
    · rcases List.mem_singleton.mp hc2 with rfl
      exact goodClause_nonzero _ hg1
  have hsome := clauseLoopGates_all_some 3 (by omega) [c0, c1] 2 0 hv
  have hD : dispatchGates [c0, c1].length =
      some [Gate.ccx (Qubit.aux 0) (Qubit.aux 1) (Qubit.out 0)] := rfl
  have hdec := oracle_ok_decomp 3 [c0, c1] _ hsome hD
  simp only [List.length_cons, List.length_nil] at hdec
  rw [hdec]
  refine ⟨rfl, ?_⟩
  simp only
  rw [runGates_append, runGates_append]
  rw [runGates_clauseLoop 3 2 (by omega) [c0, c1] 0
    ⟨[x0, x1, x2], [b], List.replicate 3 false⟩ hv hz (by simp) (by simp) rfl]
  have hpass1 : passAux 3 [x0, x1, x2]
      ((List.replicate 3 false).getD 2 false) 0 [c0, c1]
      (List.replicate 3 false) =
      [clauseFun 3 c0 [x0, x1, x2] false,
       clauseFun 3 c1 [x0, x1, x2] false, false] := by
    simp [passAux]
  rw [hpass1]
  simp only [Option.some_bind]
  rw [runGates_dispatch2 ⟨[x0, x1, x2], [b],
    [clauseFun 3 c0 [x0, x1, x2] false,
     clauseFun 3 c1 [x0, x1, x2] false, false]⟩]
  simp only [Option.some_bind]
  rw [runGates_clauseLoop 3 2 (by omega) [c0, c1] 0
    ⟨[x0, x1, x2],
      [b].set 0 (xor ([b].getD 0 false)
        ([clauseFun 3 c0 [x0, x1, x2] false,
          clauseFun 3 c1 [x0, x1, x2] false, false].getD 0 false &&
         [clauseFun 3 c0 [x0, x1, x2] false,
          clauseFun 3 c1 [x0, x1, x2] false, false].getD 1 false)),
      [clauseFun 3 c0 [x0, x1, x2] false,
       clauseFun 3 c1 [x0, x1, x2] false, false]⟩ hv hz (by simp) (by simp) rfl]
  have hpass2 : passAux 3 [x0, x1, x2]
      ([clauseFun 3 c0 [x0, x1, x2] false,
        clauseFun 3 c1 [x0, x1, x2] false, false].getD 2 false) 0 [c0, c1]
      [clauseFun 3 c0 [x0, x1, x2] false,
       clauseFun 3 c1 [x0, x1, x2] false, false] = [false, false, false] := by
    simp [passAux]
  rw [hpass2]
  refine ⟨_, rfl, ?_⟩
  simp only
  have hval0 := clauseFun_goodClause c0 hg0 x0 x1 x2
  have hval1 := clauseFun_goodClause c1 hg1 x0 x1 x2
  simp [formulaHolds, hval0, hval1]

theorem oracle_marks_three_clauses (c0 c1 c2 : List Int) (x0 x1 x2 b : Bool)
    (hg0 : goodClause c0) (hg1 : goodClause c1) (hg2 : goodClause c2) :
    (oracle [] 3 [c0, c1, c2]).2 = none ∧
    ∃ s2 : OState, runGates (oracle [] 3 [c0, c1, c2]).1
        ⟨[x0, x1, x2], [b], List.replicate 4 false⟩ = some s2 ∧
      s2.out = [xor b (formulaHolds [x0, x1, x2] [c0, c1, c2])] := by
  have hv : ∀ c ∈ [c0, c1, c2], ∀ l ∈ c, (litIdx 3 l).isSome := by
    intro c hc
    rcases List.mem_cons.mp hc with rfl | hc2
    · exact goodClause_valid _ hg0
    · rcases List.mem_cons.mp hc2 with rfl | hc3
      · exact goodClause_valid _ hg1
      · rcases List.mem_singleton.mp hc3 with rfl
        exact goodClause_valid _ hg2
  have hz : ∀ c ∈ [c0, c1, c2], ∀ l ∈ c, l ≠ 0 := by
    intro c hc
    rcases List.mem_cons.mp hc with rfl | hc2
    · exact goodClause_nonzero _ hg0
    · rcases List.mem_cons.mp hc2 with rfl | hc3
      · exact goodClause_nonzero _ hg1
      · rcases List.mem_singleton.mp hc3 with rfl
        exact goodClause_nonzero _ hg2
  have hsome := clauseLoopGates_all_some 3 (by omega) [c0, c1, c2] 3 0 hv
  have hD : dispatchGates [c0, c1, c2].length =
      some [Gate.ccx (Qubit.aux 0) (Qubit.aux 1) (Qubit.aux 3),
            Gate.ccx (Qubit.aux 2) (Qubit.aux 3) (Qubit.out 0),
            Gate.ccx (Qubit.aux 0) (Qubit.aux 1) (Qubit.aux 3)] := rfl
  have hdec := oracle_ok_decomp 3 [c0, c1, c2] _ hsome hD
  simp only [List.length_cons, List.length_nil] at hdec
  rw [hdec]
  refine ⟨rfl, ?_⟩
  simp only
  rw [runGates_append, runGates_append]
  rw [runGates_clauseLoop 3 3 (by omega) [c0, c1, c2] 0
    ⟨[x0, x1, x2], [b], List.replicate 4 false⟩ hv hz (by simp) (by simp) rfl]
  have hpass1 : passAux 3 [x0, x1, x2]
      ((List.replicate 4 false).getD 3 false) 0 [c0, c1, c2]
      (List.replicate 4 false) =
      [clauseFun 3 c0 [x0, x1, x2] false,
       clauseFun 3 c1 [x0, x1, x2] false,
       clauseFun 3 c2 [x0, x1, x2] false, false] := by
    simp [passAux]
  rw [hpass1]
  simp only [Option.some_bind]
  rw [runGates_dispatch3 ⟨[x0, x1, x2], [b],
    [clauseFun 3 c0 [x0, x1, x2] false,
     clauseFun 3 c1 [x0, x1, x2] false,
     clauseFun 3 c2 [x0, x1, x2] false, false]⟩ (by simp)]
  simp only [Option.some_bind]
  rw [runGates_clauseLoop 3 3 (by omega) [c0, c1, c2] 0
    ⟨[x0, x1, x2],
      [b].set 0 (xor ([b].getD 0 false)
        ([clauseFun 3 c0 [x0, x1, x2] false,
          clauseFun 3 c1 [x0, x1, x2] false,
          clauseFun 3 c2 [x0, x1, x2] false, false].getD 2 false &&
         (xor ([clauseFun 3 c0 [x0, x1, x2] false,
            clauseFun 3 c1 [x0, x1, x2] false,
            clauseFun 3 c2 [x0, x1, x2] false, false].getD 3 false)
           ([clauseFun 3 c0 [x0, x1, x2] false,
             clauseFun 3 c1 [x0, x1, x2] false,
             clauseFun 3 c2 [x0, x1, x2] false, false].getD 0 false &&
            [clauseFun 3 c0 [x0, x1, x2] false,
             clauseFun 3 c1 [x0, x1, x2] false,
             clauseFun 3 c2 [x0, x1, x2] false, false].getD 1 false)))),
      [clauseFun 3 c0 [x0, x1, x2] false,
       clauseFun 3 c1 [x0, x1, x2] false,
       clauseFun 3 c2 [x0, x1, x2] false, false]⟩ hv hz (by simp) (by simp) rfl]
  have hpass2 : passAux 3 [x0, x1, x2]
      ([clauseFun 3 c0 [x0, x1, x2] false,
        clauseFun 3 c1 [x0, x1, x2] false,
        clauseFun 3 c2 [x0, x1, x2] false, false].getD 3 false) 0 [c0, c1, c2]
      [clauseFun 3 c0 [x0, x1, x2] false,
       clauseFun 3 c1 [x0, x1, x2] false,
       clauseFun 3 c2 [x0, x1, x2] false, false] =
      [false, false, false, false] := by
    simp [passAux]
  rw [hpass2]
  refine ⟨_, rfl, ?_⟩
  simp only
  have hval0 := clauseFun_goodClause c0 hg0 x0 x1 x2
  have hval1 := clauseFun_goodClause c1 hg1 x0 x1 x2
  have hval2 := clauseFun_goodClause c2 hg2 x0 x1 x2
  simp only [formulaHolds, List.all_cons, List.all_nil, hval0, hval1, hval2,
    Bool.and_true, List.getD]
  congr 1
  cases exactlyOneTrue [x0, x1, x2] c0 <;>
    cases exactlyOneTrue [x0, x1, x2] c1 <;>
      cases exactlyOneTrue [x0, x1, x2] c2 <;> rfl

/-- C1: for every 1-3 clause exactly-1 3-SAT formula whose clauses mention
each of the variables 1, 2, 3 exactly once (sign encoding negation), every
basis input x on the 3 input qubits and every initial output value b, the
circuit appended by `oracle`, run on the basis state with all aux qubits 0,
maps the output qubit to b XOR f(x), where f(x) holds iff every clause has
exactly one true literal — so the output qubit is flipped exactly when
f(x) = 1. -/
theorem oracle_marks_exactly1_3sat (F : List (List Int)) (x : List Bool)
    (b : Bool) (hF1 : 1 ≤ F.length) (hF3 : F.length ≤ 3)
    (hgood : ∀ c ∈ F, goodClause c) (hx : x.length = 3) :
    (oracle [] 3 F).2 = none ∧
    ∃ s2 : OState, runGates (oracle [] 3 F).1
        ⟨x, [b], List.replicate (F.length + 1) false⟩ = some s2 ∧
      s2.out = [xor b (formulaHolds x F)] := by
  obtain ⟨x0, x1, x2, rfl⟩ := List.length_eq_three.mp hx
  rcases F with _ | ⟨c0, F⟩
  · simp at hF1
  rcases F with _ | ⟨c1, F⟩
  · exact oracle_marks_one_clause c0 x0 x1 x2 b (hgood c0 (by simp))
  rcases F with _ | ⟨c2, F⟩
  · exact oracle_marks_two_clauses c0 c1 x0 x1 x2 b (hgood c0 (by simp))
      (hgood c1 (by simp))
  rcases F with _ | ⟨c3, F⟩
  · exact oracle_marks_three_clauses c0 c1 c2 x0 x1 x2 b (hgood c0 (by simp))
      (hgood c1 (by simp)) (hgood c2 (by simp))
  · exfalso
    simp only [List.length_cons] at hF3
    omega

/-- C9 (amended): for every formula accepted by `oracle` without raising
whose literals are all nonzero, every basis input and every initial output
value, the full oracle circuit returns every input qubit and every aux
qubit (including the ancilla) to its initial all-zero value; only the
output qubit can change. -/
theorem oracle_uncompute_restores (n : Nat) (F : List (List Int))
    (x : List Bool) (b : Bool)
    (hacc : (oracle [] n F).2 = none)
    (hz : ∀ c ∈ F, ∀ l ∈ c, l ≠ 0)
    (hx : x.length = n) :
    ∃ b2 : Bool, runGates (oracle [] n F).1
        ⟨x, [b], List.replicate (F.length + 1) false⟩ =
      some ⟨x, [b2], List.replicate (F.length + 1) false⟩ := by
  obtain ⟨hsome, hnc1, hnc3⟩ := oracle_none_inv n F hacc
  obtain ⟨hv, hn2⟩ := clauseLoopGates_some_inv n F F.length 0 hsome
  have hn : 2 < n := by
    rcases hn2 with hFnil | hn3
    · rw [hFnil] at hnc1; simp at hnc1
    · exact hn3
  rcases hD : dispatchGates F.length with _ | ds
  · rw [dispatchGates_none_iff] at hD
    exact absurd ⟨hnc1, hnc3⟩ hD
  have hdec := oracle_ok_decomp n F ds hsome hD
  have hlen1 : (passAux n x false 0 F
      (List.replicate (F.length + 1) false)).length = F.length + 1 := by
    rw [passAux_length]
    simp
  have hanc1 : (passAux n x false 0 F
      (List.replicate (F.length + 1) false)).getD F.length false = false := by
    rw [passAux_getD_out n x false F 0 _ F.length (by omega)]
    exact getD_replicate_false _ _
  have hcancel := passAux_passAux n x false F 0
    (List.replicate (F.length + 1) false) (by simp)
  have h123 : F.length = 1 ∨ F.length = 2 ∨ F.length = 3 := by omega
  rcases h123 with h1 | h2 | h3
  · -- one clause
    rw [h1] at hD
    have hds : ds = [Gate.cx (Qubit.aux 0) (Qubit.out 0)] := by
      simp [dispatchGates] at hD
      exact hD.symm
    subst hds
    refine ⟨xor ([b].getD 0 false)
      ((passAux n x false 0 F
        (List.replicate (F.length + 1) false)).getD 0 false), ?_⟩
    rw [hdec]
    simp only
    rw [runGates_append, runGates_append]
    rw [runGates_clauseLoop n F.length hn F 0
      ⟨x, [b], List.replicate (F.length + 1) false⟩ hv hz (by omega)
      (by simp) hx]
    simp only [getD_replicate_false, Option.some_bind]
    rw [runGates_dispatch1 ⟨x, [b],
      passAux n x false 0 F (List.replicate (F.length + 1) false)⟩]
    simp only [Option.some_bind, List.set_cons_zero]
    rw [runGates_clauseLoop n F.length hn F 0
      ⟨x, [xor ([b].getD 0 false)
        ((passAux n x false 0 F
          (List.replicate (F.length + 1) false)).getD 0 false)],
        passAux n x false 0 F (List.replicate (F.length + 1) false)⟩
      hv hz (by omega) (by rw [hlen1]; omega) hx]
    rw [hanc1, hcancel]
  · -- two clauses
    rw [h2] at hD
    have hds : ds = [Gate.ccx (Qubit.aux 0) (Qubit.aux 1) (Qubit.out 0)] := by
      simp [dispatchGates] at hD
      exact hD.symm
    subst hds
    refine ⟨xor ([b].getD 0 false)
      ((passAux n x false 0 F
        (List.replicate (F.length + 1) false)).getD 0 false &&
       (passAux n x false 0 F
        (List.replicate (F.length + 1) false)).getD 1 false), ?_⟩
    rw [hdec]
    simp only
    rw [runGates_append, runGates_append]
    rw [runGates_clauseLoop n F.length hn F 0
      ⟨x, [b], List.replicate (F.length + 1) false⟩ hv hz (by omega)
      (by simp) hx]
    simp only [getD_replicate_false, Option.some_bind]
    rw [runGates_dispatch2 ⟨x, [b],
      passAux n x false 0 F (List.replicate (F.length + 1) false)⟩]
    simp only [Option.some_bind, List.set_cons_zero]
    rw [runGates_clauseLoop n F.length hn F 0
      ⟨x, [xor ([b].getD 0 false)
        ((passAux n x false 0 F
          (List.replicate (F.length + 1) false)).getD 0 false &&
         (passAux n x false 0 F
          (List.replicate (F.length + 1) false)).getD 1 false)],
        passAux n x false 0 F (List.replicate (F.length + 1) false)⟩
      hv hz (by omega) (by rw [hlen1]; omega) hx]
    rw [hanc1, hcancel]
  · -- three clauses
    rw [h3] at hD
    have hds : ds = [Gate.ccx (Qubit.aux 0) (Qubit.aux 1) (Qubit.aux 3),
        Gate.ccx (Qubit.aux 2) (Qubit.aux 3) (Qubit.out 0),
        Gate.ccx (Qubit.aux 0) (Qubit.aux 1) (Qubit.aux 3)] := by
      simp [dispatchGates] at hD
      exact hD.symm
    subst hds
    refine ⟨xor ([b].getD 0 false)
      ((passAux n x false 0 F
        (List.replicate (F.length + 1) false)).getD 2 false &&
       (xor ((passAux n x false 0 F
          (List.replicate (F.length + 1) false)).getD 3 false)
        ((passAux n x false 0 F
          (List.replicate (F.length + 1) false)).getD 0 false &&
         (passAux n x false 0 F
          (List.replicate (F.length + 1) false)).getD 1 false))), ?_⟩
    rw [hdec]
    simp only
    rw [runGates_append, runGates_append]
    rw [runGates_clauseLoop n F.length hn F 0
      ⟨x, [b], List.replicate (F.length + 1) false⟩ hv hz (by omega)
      (by simp) hx]
    simp only [getD_replicate_false, Option.some_bind]
    rw [runGates_dispatch3 ⟨x, [b],
      passAux n x false 0 F (List.replicate (F.length + 1) false)⟩
      (by rw [hlen1]; omega)]
    simp only [Option.some_bind, List.set_cons_zero]
    rw [runGates_clauseLoop n F.length hn F 0
      ⟨x, [xor ([b].getD 0 false)
        ((passAux n x false 0 F
          (List.replicate (F.length + 1) false)).getD 2 false &&
         (xor ((passAux n x false 0 F
            (List.replicate (F.length + 1) false)).getD 3 false)
          ((passAux n x false 0 F
            (List.replicate (F.length + 1) false)).getD 0 false &&
           (passAux n x false 0 F
            (List.replicate (F.length + 1) false)).getD 1 false)))],
        passAux n x false 0 F (List.replicate (F.length + 1) false)⟩
      hv hz (by omega) (by rw [hlen1]; omega) hx]
    rw [hanc1, hcancel]

/-- Witness for C1: the driver's three-clause formula on basis input
(1, 0, 1), its unique satisfying assignment, flips the output qubit. -/
theorem oracle_marks_exactly1_3sat_witness :
    1 ≤ grover_formula.length ∧ grover_formula.length ≤ 3 ∧
    (∀ c ∈ grover_formula, goodClause c) ∧
    ([true, false, true] : List Bool).length = 3 ∧
    ((oracle [] 3 grover_formula).2 = none ∧
     ∃ s2 : OState, runGates (oracle [] 3 grover_formula).1
         ⟨[true, false, true], [false],
          List.replicate (grover_formula.length + 1) false⟩ = some s2 ∧
       s2.out = [xor false (formulaHolds [true, false, true] grover_formula)]) :=
  ⟨by decide, by decide, by decide, by decide,
    oracle_marks_exactly1_3sat grover_formula [true, false, true] false
      (by decide) (by decide) (by decide) (by decide)⟩

/-- C9 counterexample: the formula [[0]] is accepted by `oracle` without
raising (literal 0 resolves, via Python negative indexing, to the last
input qubit), yet one full oracle application on basis input 000 with all
aux qubits 0 leaves aux qubit 0 set to 1: the uncompute pass does not
restore it, because the flip-back loop skips literal 0. -/
theorem oracle_uncompute_cex :
    (oracle [] 3 [[0]]).2 = none ∧
    runGates (oracle [] 3 [[0]]).1
        ⟨[false, false, false], [false], [false, false]⟩ =
      some ⟨[false, false, false], [true], [true, false]⟩ ∧
    ([true, false] : List Bool) ≠ [false, false] := by
  refine ⟨by decide, by decide, by decide⟩

/-- Witness for C9 (amended) at the driver's formula and input 101. -/
theorem oracle_uncompute_restores_witness :
    (oracle [] 3 grover_formula).2 = none ∧
    (∀ c ∈ grover_formula, ∀ l ∈ c, l ≠ 0) ∧
    ([true, false, true] : List Bool).length = 3 ∧
    ∃ b2 : Bool, runGates (oracle [] 3 grover_formula).1
        ⟨[true, false, true], [false],
         List.replicate (grover_formula.length + 1) false⟩ =
      some ⟨[true, false, true], [b2],
        List.replicate (grover_formula.length + 1) false⟩ :=
  ⟨by decide, by decide, by decide,
    oracle_uncompute_restores 3 grover_formula [true, false, true] false
      (by decide) (by decide) (by decide)⟩
